import Mathlib

/-!
Verification development for a small C++ utility repository consisting of two
components:

* `BitArray<T>` (BitArray.hpp): a bit-addressable view over an array of
  fixed-width unsigned words, MSB-first within each word.
* `BitStreamMatch<NEEDLE_LEN>` (BitStreamMatch.hpp): a streaming
  Knuth-Morris-Pratt bit matcher over a needle read through a
  `BitArray<unsigned char const>`.

The embedding models machine integers explicitly: `size_t` as a natural
number with arithmetic reduced modulo `2 ^ 64`, and `int` as a mathematical
integer with the narrowing conversion from `size_t` made explicit
(two's-complement narrowing to 32 bits).  Memory reads that the C++ code
performs without a bounds check are embedded totally: an index outside the
backing store returns `none` / an `oob` error, mirroring the fact that the
corresponding C++ read is undefined behaviour.
-/

/-- Number of values of the 64-bit `size_t`: `2 ^ 64`. -/
def SZ : Nat := 2 ^ 64

/-- Number of values of the 32-bit `int`: `2 ^ 32`. -/
def INT32 : Nat := 2 ^ 32

/-- Two's-complement narrowing conversion of a `size_t` value to `int`,
as happens in `table[0] = ~size_t{0};` and `table[pos] = cnd;`. -/
def toInt32 (n : Nat) : Int :=
  if n % INT32 < 2 ^ 31 then ((n % INT32 : Nat) : Int)
  else ((n % INT32 : Nat) : Int) - (INT32 : Int)

/-- Modular conversion of an `int` value to `size_t`, as happens in
`k = table[k];` and `cnd = table[cnd];` (both store an `int` into a
`size_t` variable). -/
def toSizeT (i : Int) : Nat := (i % (SZ : Int)).toNat

namespace BitArray

/-- `word(pos)` from BitArray.hpp: index of the word holding bit `pos`;
`W` is the word width in bits (`TS = sizeof(T) * 8`). -/
def word (W pos : Nat) : Nat := pos / W

/-- `bit(pos)` from BitArray.hpp: the in-word bit offset, MSB-first:
`TS - 1 - (pos % TS)`. -/
def bit (W pos : Nat) : Nat := W - 1 - pos % W

/-- `get(pos)` from BitArray.hpp: `1 & (data[word(pos)] >> bit(pos))`,
converted to `bool`.  A read of a word outside the buffer is undefined
behaviour in the C++ and returns `none` here. -/
def get (W : Nat) (data : List Nat) (pos : Nat) : Option Bool :=
  match data.get? (word W pos) with
  | none => none
  | some w => some (1 &&& (w >>> bit W pos) != 0)

/-- `set(pos, val)` from BitArray.hpp: OR in `T(1) << bit(pos)` when `val`
is true, AND with its complement (within the `W`-bit word) when false. -/
def set (W : Nat) (data : List Nat) (pos : Nat) (val : Bool) : Option (List Nat) :=
  match data.get? (word W pos) with
  | none => none
  | some w =>
    some (data.set (word W pos)
      (if val then w ||| 1 <<< bit W pos
       else w &&& ((2 ^ W - 1) ^^^ 1 <<< bit W pos)))

end BitArray

/-- Error outcomes of the total embedding: `oob` marks a memory access
outside the backing store (undefined behaviour in the C++); `fuelOut`
marks exhaustion of the structural recursion bound and is never produced
by the executions the theorems below talk about. -/
inductive CErr
  | oob
  | fuelOut
deriving DecidableEq

/-- `needle[i]` in BitStreamMatch.hpp: a bit read through
`BitArray<unsigned char const>`, i.e. a `BitArray` read with 8-bit words. -/
def needleGet (bytes : List Nat) (i : Nat) : Option Bool :=
  BitArray.get 8 bytes i

/-- The failure table after `int table[needle_len]{};` (zero-initialised)
and the assignment `table[0] = ~size_t{0};` (all-ones narrowed to `int`). -/
def tableInit (n : Nat) : List Int :=
  (List.replicate n (0 : Int)).set 0 (toInt32 (SZ - 1))

/-- The inner fallback loop of `init_table`:
`while (cnd >= 0 && needle[pos] != needle[cnd]) { cnd = table[cnd]; }`.
`cnd` is a `size_t`, so the guard `cnd >= 0` is vacuously true and is
dropped; the loop can only stop through the bit comparison.  `pb` is the
loop-invariant value of `needle[pos]`. -/
def fallback (bytes : List Nat) (table : List Int) (pb : Bool) (fuel cnd : Nat) :
    Except CErr Nat :=
  match fuel with
  | 0 => Except.error CErr.fuelOut
  | f + 1 =>
    match needleGet bytes cnd with
    | none => Except.error CErr.oob
    | some pc =>
      if pb ≠ pc then
        match table.get? cnd with
        | none => Except.error CErr.oob
        | some t => fallback bytes table pb f (toSizeT t)
      else Except.ok cnd

/-- The outer loop of `init_table` over `pos = 1 .. needle_len - 1`.
`pos` and `cnd` are `size_t` variables, so their increments are taken
modulo `2 ^ 64`.  In the mismatch branch the source first stores
`table[pos] = cnd;`, then runs `cnd = table[cnd];` followed by the inner
fallback loop. -/
def initLoop (n : Nat) (bytes : List Nat) (fuel pos cnd : Nat) (table : List Int) :
    Except CErr (List Int) :=
  match fuel with
  | 0 => Except.error CErr.fuelOut
  | f + 1 =>
    if pos < n then
      match needleGet bytes pos, needleGet bytes cnd with
      | some pp, some pc =>
        if pp = pc then
          match table.get? cnd with
          | none => Except.error CErr.oob
          | some t =>
            initLoop n bytes f ((pos + 1) % SZ) ((cnd + 1) % SZ) (table.set pos t)
        else
          match (table.set pos (toInt32 cnd)).get? cnd with
          | none => Except.error CErr.oob
          | some t =>
            match fallback bytes (table.set pos (toInt32 cnd)) pp (n + 1) (toSizeT t) with
            | Except.error e => Except.error e
            | Except.ok cnd2 =>
              initLoop n bytes f ((pos + 1) % SZ) ((cnd2 + 1) % SZ)
                (table.set pos (toInt32 cnd))
      | _, _ => Except.error CErr.oob
    else Except.ok table

/-- `init_table()` from BitStreamMatch.hpp, run at construction. -/
def init_table (n : Nat) (bytes : List Nat) : Except CErr (List Int) :=
  initLoop n bytes (n + 1) 1 0 (tableInit n)

/-- The state of a `BitStreamMatch<NEEDLE_LEN>` object: the needle byte
buffer, `needle_len`, the `int` failure table, and the `size_t` match
counter `k`. -/
structure Matcher where
  bytes : List Nat
  n : Nat
  table : List Int
  k : Nat
deriving DecidableEq

/-- The constructor `BitStreamMatch(unsigned char const *needle)`:
stores the needle and runs `init_table()`; `k` starts at 0. -/
def buildMatcher (n : Nat) (bytes : List Nat) : Except CErr Matcher :=
  match init_table n bytes with
  | Except.error e => Except.error e
  | Except.ok t => Except.ok (Matcher.mk bytes n t 0)

/-- `get_matched_bits()` from BitStreamMatch.hpp. -/
def get_matched_bits (m : Matcher) : Nat := m.k

/-- `restart()` from BitStreamMatch.hpp: sets `k` to 0. -/
def restart (m : Matcher) : Matcher := Matcher.mk m.bytes m.n m.table 0

/-- `handle_bit(bool bit)` from BitStreamMatch.hpp.  On a mismatch `k`
takes the value `table[k]` converted back to `size_t`; the match test
compares against the `size_t` value `needle_len - 1`, and the increment
`k++` wraps modulo `2 ^ 64`. -/
def handle_bit (m : Matcher) (b : Bool) : Except CErr (Bool × Matcher) :=
  match needleGet m.bytes m.k with
  | none => Except.error CErr.oob
  | some nk =>
    match (if nk ≠ b then
             match m.table.get? m.k with
             | none => Except.error CErr.oob
             | some t => Except.ok (toSizeT t)
           else Except.ok m.k : Except CErr Nat) with
    | Except.error e => Except.error e
    | Except.ok k1 =>
      if k1 = (m.n + (SZ - 1)) % SZ then Except.ok (true, Matcher.mk m.bytes m.n m.table 0)
      else Except.ok (false, Matcher.mk m.bytes m.n m.table ((k1 + 1) % SZ))

/-- An externally driven operation on a matcher. -/
inductive Op
  | handle (b : Bool)
  | restartOp

/-- Runs a sequence of operations on a matcher, threading the state. -/
def run (m : Matcher) : List Op → Except CErr Matcher
  | [] => Except.ok m
  | Op.handle b :: ops =>
    match handle_bit m b with
    | Except.error e => Except.error e
    | Except.ok (_, m2) => run m2 ops
  | Op.restartOp :: ops => run (restart m) ops

/-- Feeds a list of stream bits through `handle_bit` and collects the
returned booleans. -/
def runOutputs (m : Matcher) : List Bool → Except CErr (List Bool)
  | [] => Except.ok []
  | b :: bs =>
    match handle_bit m b with
    | Except.error e => Except.error e
    | Except.ok (r, m2) =>
      match runOutputs m2 bs with
      | Except.error e => Except.error e
      | Except.ok rs => Except.ok (r :: rs)

/-!
Specification-side definitions, used only to compare the code's behaviour
against the spec's words (refinement comparisons for C2 and C3).
-/

/-- Whether the first `len` bits of `bits` equal its last `len` bits,
i.e. whether `len` is a border length of `bits`. -/
def isBorder (bits : List Bool) (len : Nat) : Bool :=
  decide (bits.take len = bits.drop (bits.length - len))

/-- Modelled from the spec: the length of the longest proper border
(prefix that is also a suffix) of `bits`, the textbook KMP
border-function value. -/
def borderLen (bits : List Bool) : Nat :=
  ((List.range bits.length).filter (fun len => isBorder bits len)).foldl max 0

/-- Modelled from the spec: the failure table the spec describes, with the
`-1` sentinel at position 0 and, at every later position `i`, the length of
the longest proper border of the needle prefix ending there
(`p[0..i]`). -/
def specBorderTable (bits : List Bool) : List Int :=
  (List.range bits.length).map fun i =>
    if i = 0 then -1 else (borderLen (bits.take (i + 1)) : Int)

/-- Modelled from the spec: one round of the inner fallback of the spec's
table construction, `cnd = table[cnd]` repeated while `cnd` is a valid
index and `p[pos] != p[cnd]`, with the signed sentinel kept as a genuine
`-1` (`cnd : Int`). -/
def specFall (bits : List Bool) (table : List Int) (pb : Bool) (fuel : Nat) (c : Int) : Int :=
  match fuel with
  | 0 => c
  | f + 1 =>
    if 0 ≤ c ∧ c < (bits.length : Int) ∧ bits.getD c.toNat false ≠ pb then
      specFall bits table pb f (table.getD c.toNat 0)
    else c

/-- Modelled from the spec: the outer loop of the spec's table
construction over positions `1 .. N - 1`, with a signed candidate. -/
def specTableGo (bits : List Bool) (fuel pos : Nat) (cnd : Int) (t : List Int) : List Int :=
  match fuel with
  | 0 => t
  | f + 1 =>
    if pos < bits.length then
      if bits.getD pos false = bits.getD cnd.toNat false then
        specTableGo bits f (pos + 1) (cnd + 1) (t.set pos (t.getD cnd.toNat 0))
      else
        specTableGo bits f (pos + 1)
          (specFall bits (t.set pos cnd) (bits.getD pos false) bits.length
            ((t.set pos cnd).getD cnd.toNat 0) + 1)
          (t.set pos cnd)
    else t

/-- Modelled from the spec: the failure table produced by the spec's
construction rules (section 4.2), with `table[0] = -1`. -/
def specTable (bits : List Bool) : List Int :=
  specTableGo bits (bits.length + 1) 1 0 ((List.replicate bits.length (0 : Int)).set 0 (-1))

/-- Modelled from the spec: the per-bit update of section 4.2 — fall back
`k = table[k]` on a mismatch, report a match and reset `k` to 0 when the
resulting `k` equals `N - 1`, otherwise advance `k` — with the sentinel
kept signed. -/
def specRunGo (bits : List Bool) (table : List Int) (k : Int) : List Bool → List Bool
  | [] => []
  | b :: bs =>
    let k1 := if bits.getD k.toNat false ≠ b then table.getD k.toNat 0 else k
    if k1 = (bits.length : Int) - 1 then true :: specRunGo bits table 0 bs
    else false :: specRunGo bits table (k1 + 1) bs

/-- Modelled from the spec: the outputs of the spec's matcher on a stream,
starting from `k = 0` with the spec's table. -/
def specMatches (bits stream : List Bool) : List Bool :=
  specRunGo bits (specTable bits) 0 stream

/-- The literal statement of claim C2 as a decidable test: the matcher
for the 4-bit needle 1011 (byte `0xB0`) is constructed, the stream
`1,0,1,1,0,1,1` is fed bit by bit, and `handle_bit` returns true exactly
at the 4th and 7th bits. -/
def c2holds : Bool :=
  match buildMatcher 4 [0xB0] with
  | Except.error _ => false
  | Except.ok m =>
    match runOutputs m [true, false, true, true, false, true, true] with
    | Except.error _ => false
    | Except.ok rs => decide (rs = [false, false, false, true, false, false, true])

/-- The literal statement of the concrete part of claim C3 as a decidable
test: the computed failure tables for the needles 0000 (byte `0x00`) and
1001 (byte `0x90`) both equal the textbook border-function tables. -/
def c3holds : Bool :=
  (match init_table 4 [0x00] with
   | Except.ok t => decide (t = specBorderTable [false, false, false, false])
   | Except.error _ => false)
  && (match init_table 4 [0x90] with
      | Except.ok t => decide (t = specBorderTable [true, false, false, true])
      | Except.error _ => false)

/-- The property claimed by C9 as a decidable test on a constructed
matcher: every non-sentinel failure-table entry `table[i]` points at a
needle bit that differs from the needle bit at `i`. -/
def tableProp (m : Matcher) : Bool :=
  (List.range m.n).all fun i =>
    match m.table.get? i with
    | none => false
    | some v =>
      if v = -1 then true
      else
        match needleGet m.bytes i, needleGet m.bytes (toSizeT v) with
        | some pi, some pv => pv != pi
        | _, _ => false

/-!
Claims settled by direct evaluation (C1 - C5).
-/

/-- C1: the spec example — matcher for needle 101 fed 1,0,1 yields
false, false, true with `get_matched_bits() = 0` after the true — cannot
be exhibited by the code: constructing the matcher for the 3-bit needle
101 (byte `0xA0`) already performs an out-of-range needle read inside
`init_table`'s fallback loop (`cnd` is unsigned, so `table[0] = -1`
becomes `2 ^ 64 - 1` and the guard reads `needle[2 ^ 64 - 1]`), so the
construction aborts before any stream bit can be handled.  The example
itself is the clear intent: the spec's own per-bit rules produce exactly
false, false, true on this input (`specMatches`). -/
theorem C1_construction_out_of_range :
    buildMatcher 3 [0xA0] = Except.error CErr.oob ∧
    specMatches [true, false, true] [true, false, true] = [false, false, true] := by
  constructor
  · rfl
  · rfl

/-- C2 counterexample: the literal claim — matcher for needle 1011 fed
1,0,1,1,0,1,1 reports a match exactly at the 4th and 7th bits — is false
of the code: `c2holds` evaluates the whole scenario and is `false`. -/
theorem C2_claim_false : c2holds = false := by rfl

/-- C2 amended: constructing the matcher for the 4-bit needle 1011 (byte
`0xB0`) aborts with an out-of-range needle read inside `init_table`, so
the code never reports anything on this stream; and even the spec's own
per-bit rules (signed sentinel, reset of `k` to 0 after a match) report a
match at the 4th bit only — resetting `k` discards the partial overlap,
so no match is reported at the 7th bit. -/
theorem C2_no_overlap_match :
    buildMatcher 4 [0xB0] = Except.error CErr.oob ∧
    specMatches [true, false, true, true] [true, false, true, true, false, true, true]
      = [false, false, false, true, false, false, false] := by
  constructor
  · rfl
  · rfl

/-- C3 counterexample: the computed failure tables do not equal the
textbook border-function tables for the needles 0000 and 1001:
`c3holds` evaluates the comparison and is `false`. -/
theorem C3_claim_false : c3holds = false := by rfl

/-- C3 amended: the table keeps the -1 sentinel at position 0, but the
later entries are the optimized-KMP fallback values (on equal bits the
candidate's own entry, possibly -1, is copied), not border lengths: for
needle 0000 (byte `0x00`) the computed table is `[-1, -1, -1, -1]` while
the border-function table is `[-1, 1, 2, 3]`; for needle 1001 (byte
`0x90`) the construction aborts on the out-of-range fallback read and
yields no table at all. -/
theorem C3_optimized_not_border :
    init_table 4 [0x00] = Except.ok [-1, -1, -1, -1] ∧
    specBorderTable [false, false, false, false] = [-1, 1, 2, 3] ∧
    init_table 4 [0x90] = Except.error CErr.oob := by
  refine ⟨?_, ?_, ?_⟩
  · rfl
  · rfl
  · rfl

/-- C4: the claim that construction and `handle_bit` never reach an
out-of-range read is false: already for the 2-bit needle 10 (byte
`0x80`), `init_table` hits the mismatch branch with `cnd = 0`, assigns
`cnd = table[0] = -1` — which the unsigned `cnd` stores as `2 ^ 64 - 1` —
and the fallback guard then reads needle bit `2 ^ 64 - 1`, i.e. byte
`2 ^ 61 - 1` of a 1-byte buffer: the total embedding reaches its
out-of-range branch. -/
theorem C4_out_of_range_read :
    buildMatcher 2 [0x80] = Except.error CErr.oob := by rfl

/-- C5: the inner fallback loop of `init_table` does not finish in the
guarded way the spec describes: its guard `cnd >= 0` is vacuously true
for the unsigned `cnd`, so the loop can only stop through the bit
comparison, and for the 2-bit needle 01 (byte `0x40`) that comparison is
an out-of-range read (undefined behaviour) — in the total embedding the
construction aborts instead of the loop terminating: -/
theorem C5_fallback_loop_aborts :
    buildMatcher 2 [0x40] = Except.error CErr.oob := by rfl

/-!
Helper lemmas about the construction and the per-bit update.
-/

/-- The all-ones `size_t` value narrows to the `int` value `-1`. -/
theorem toInt32_allones : toInt32 (SZ - 1) = -1 := by decide

/-- The `int` value `-1` converts to the `size_t` value `2 ^ 64 - 1`. -/
theorem toSizeT_neg_one : toSizeT (-1) = SZ - 1 := by decide

/-- On a buffer of fewer than `2 ^ 61` bytes, the needle read at bit index
`2 ^ 64 - 1` is out of range. -/
theorem needleGet_top_none (bytes : List Nat) (hb : bytes.length < 2 ^ 61) :
    needleGet bytes (SZ - 1) = none := by
  have hdiv : BitArray.word 8 (SZ - 1) = 2 ^ 61 - 1 := by decide
  unfold needleGet BitArray.get
  rw [hdiv]
  rw [List.get?_eq_none.mpr (by omega)]

/-- Entering the fallback loop with the converted sentinel immediately
performs the out-of-range read. -/
theorem fallback_sentinel_oob (bytes : List Nat) (hb : bytes.length < 2 ^ 61)
    (table : List Int) (pb : Bool) (f : Nat) :
    fallback bytes table pb (f + 1) (toSizeT (-1)) = Except.error CErr.oob := by
  rw [toSizeT_neg_one]
  unfold fallback
  rw [needleGet_top_none bytes hb]
theorem initLoop_zero (n : Nat) (bytes : List Nat) (pos cnd : Nat) (table : List Int) :
    initLoop n bytes 0 pos cnd table = Except.error CErr.fuelOut := rfl

theorem initLoop_ok_inv (n : Nat) (bytes : List Nat) (hb : bytes.length < 2 ^ 61)
    (hn : n < SZ) :
    ∀ fuel pos cnd table t, cnd + 1 = pos →
      table.length = n →
      (∀ i, i < pos → i < n → table.get? i = some (-1)) →
      initLoop n bytes fuel pos cnd table = Except.ok t →
      t.length = n ∧ ∀ i, i < n → t.get? i = some (-1) := by
  intro fuel
  induction fuel with
  | zero =>
    intro pos cnd table t hcp hlen hinv h
    rw [initLoop_zero] at h
    simp at h
  | succ f ih =>
    intro pos cnd table t hcp hlen hinv h
    rw [initLoop] at h
    by_cases hpos : pos < n
    · rw [if_pos hpos] at h
      split at h
      case _ pp pc hpp hpc =>
        by_cases hppc : pp = pc
        · rw [if_pos hppc] at h
          have hcnd : table.get? cnd = some (-1) := hinv cnd (by omega) (by omega)
          split at h
          case _ heq => rw [hcnd] at heq; simp at heq
          case _ tv heq =>
            rw [hcnd] at heq
            have htv : tv = -1 := by simpa using heq.symm
            subst htv
            have hmod1 : (pos + 1) % SZ = pos + 1 := Nat.mod_eq_of_lt (by unfold SZ at hn ⊢; omega)
            have hmod2 : (cnd + 1) % SZ = cnd + 1 := Nat.mod_eq_of_lt (by unfold SZ at hn ⊢; omega)
            rw [hmod1, hmod2] at h
            refine ih (pos + 1) (cnd + 1) (table.set pos (-1)) t (by omega) ?_ ?_ h
            · rw [List.length_set]; exact hlen
            · intro i hi hin
              by_cases hip : i = pos
              · subst hip
                rw [List.get?_set_eq_of_lt _ (by omega)]
              · rw [List.get?_set_ne _ _ (by omega)]
                exact hinv i (by omega) hin
        · rw [if_neg hppc] at h
          have hcnd : (table.set pos (toInt32 cnd)).get? cnd = some (-1) := by
            rw [List.get?_set_ne _ _ (by omega)]
            exact hinv cnd (by omega) (by omega)
          split at h
          case _ heq => rw [hcnd] at heq; simp at heq
          case _ tv heq =>
            rw [hcnd] at heq
            have htv : tv = -1 := by simpa using heq.symm
            subst htv
            rw [fallback_sentinel_oob bytes hb _ pp n] at h
            simp at h
      case _ hne => simp at h
    · rw [if_neg hpos] at h
      have ht : t = table := by simpa using h.symm
      subst ht
      refine ⟨hlen, fun i hin => hinv i (by omega) hin⟩

/-- The invariant maintained across calls on a matcher the constructor can
actually produce: the table has one entry per needle position, every entry
is the -1 sentinel, and the match counter stays below `needle_len`. -/
def MInv (m : Matcher) : Prop :=
  1 ≤ m.n ∧ m.n < SZ ∧ m.table.length = m.n ∧
    (∀ i, i < m.n → m.table.get? i = some (-1)) ∧ m.k ≤ m.n - 1

/-- The `size_t` expression `needle_len - 1` evaluates to `n - 1` for
`1 ≤ n < 2 ^ 64`. -/
theorem sub_one_mod (n : Nat) (h1 : 1 ≤ n) (h2 : n < SZ) :
    (n + (SZ - 1)) % SZ = n - 1 := by
  unfold SZ at h2 ⊢
  omega

/-- A successful `handle_bit` call preserves the invariant and leaves the
needle, length and table untouched. -/
theorem handle_bit_inv (m : Matcher) (b r : Bool) (m2 : Matcher)
    (hm : MInv m) (h : handle_bit m b = Except.ok (r, m2)) :
    m2.bytes = m.bytes ∧ m2.n = m.n ∧ m2.table = m.table ∧ MInv m2 := by
  obtain ⟨h1, h2, hlen, hall, hk⟩ := hm
  unfold handle_bit at h
  cases hng : needleGet m.bytes m.k with
  | none =>
    simp only [hng] at h
    exact Except.noConfusion h
  | some nk =>
    simp only [hng] at h
    rw [sub_one_mod m.n h1 h2] at h
    by_cases hne : nk ≠ b
    · rw [if_pos hne] at h
      have hTk : m.table.get? m.k = some (-1) := hall m.k (by omega)
      simp only [hTk] at h
      rw [toSizeT_neg_one] at h
      have hzero : ¬(SZ - 1 = m.n - 1) := by unfold SZ at h2 ⊢; omega
      rw [if_neg hzero] at h
      have hwrap : (SZ - 1 + 1) % SZ = 0 := by unfold SZ; omega
      rw [hwrap] at h
      injection h with h4
      injection h4 with hr4 hm4
      subst hm4
      exact ⟨rfl, rfl, rfl, h1, h2, hlen, hall, Nat.zero_le _⟩
    · simp only [if_neg hne] at h
      by_cases hkN : m.k = m.n - 1
      · rw [if_pos hkN] at h
        injection h with h4
        injection h4 with hr4 hm4
        subst hm4
        exact ⟨rfl, rfl, rfl, h1, h2, hlen, hall, Nat.zero_le _⟩
      · rw [if_neg hkN] at h
        have hlt : (m.k + 1) % SZ = m.k + 1 := Nat.mod_eq_of_lt (by unfold SZ at h2 ⊢; omega)
        rw [hlt] at h
        injection h with h4
        injection h4 with hr4 hm4
        subst hm4
        refine ⟨rfl, rfl, rfl, h1, h2, hlen, hall, ?_⟩
        show m.k + 1 ≤ m.n - 1
        omega

/-- Any successful sequence of `handle_bit` and `restart` calls preserves
the invariant and the needle length. -/
theorem run_inv (ops : List Op) :
    ∀ m m1 : Matcher, MInv m → run m ops = Except.ok m1 →
      m1.n = m.n ∧ MInv m1 := by
  induction ops with
  | nil =>
    intro m m1 hm h
    rw [run] at h
    have h3 : m1 = m := by simpa using h.symm
    subst h3
    exact ⟨rfl, hm⟩
  | cons op ops ih =>
    intro m m1 hm h
    cases op with
    | handle b =>
      rw [run] at h
      cases hstep : handle_bit m b with
      | error e => rw [hstep] at h; simp at h
      | ok rm =>
        rw [hstep] at h
        obtain ⟨r, m2⟩ := rm
        obtain ⟨_, hn2, _, hinv2⟩ := handle_bit_inv m b r m2 hm hstep
        obtain ⟨hn1, hinv1⟩ := ih m2 m1 hinv2 h
        exact ⟨by omega, hinv1⟩
    | restartOp =>
      rw [run] at h
      have hr : MInv (restart m) := by
        obtain ⟨h1, h2, hlen, hall, _⟩ := hm
        exact ⟨h1, h2, hlen, hall, Nat.zero_le _⟩
      obtain ⟨hn1, hinv1⟩ := ih (restart m) m1 hr h
      exact ⟨hn1, hinv1⟩

/-- A successfully constructed matcher satisfies the invariant, and its
table entries are all the -1 sentinel. -/
theorem buildMatcher_inv (n : Nat) (bytes : List Nat) (m0 : Matcher)
    (h1 : 1 ≤ n) (hn : n < SZ) (hb : bytes.length < 2 ^ 61)
    (hbuild : buildMatcher n bytes = Except.ok m0) :
    m0.bytes = bytes ∧ m0.n = n ∧ m0.k = 0 ∧ MInv m0 := by
  unfold buildMatcher at hbuild
  cases hinit : init_table n bytes with
  | error e => rw [hinit] at hbuild; exact Except.noConfusion hbuild
  | ok t =>
    rw [hinit] at hbuild
    injection hbuild with hm0
    unfold init_table at hinit
    have hlen0 : (tableInit n).length = n := by
      unfold tableInit; rw [List.length_set, List.length_replicate]
    have hinv0 : ∀ i, i < 1 → i < n → (tableInit n).get? i = some (-1) := by
      intro i hi hin
      have hz : i = 0 := by omega
      subst hz
      unfold tableInit
      rw [List.get?_set_eq_of_lt _ (by rw [List.length_replicate]; omega), toInt32_allones]
    obtain ⟨hlen, hall⟩ :=
      initLoop_ok_inv n bytes hb hn (n + 1) 1 0 (tableInit n) t rfl hlen0 hinv0 hinit
    subst hm0
    exact ⟨rfl, rfl, rfl, h1, hn, hlen, hall, Nat.zero_le _⟩

/-- C6: between calls, the matched-bit count `k` reported by
`get_matched_bits` stays in `[0, N - 1]` — it never reaches `N` — for
every matcher the constructor actually produces and every sequence of
`handle_bit` and `restart` calls starting from construction. -/
theorem C6_matched_bits_in_range (n : Nat) (bytes : List Nat) (m0 m1 : Matcher)
    (ops : List Op) (h1 : 1 ≤ n) (hn : n < SZ) (hb : bytes.length < 2 ^ 61)
    (hbuild : buildMatcher n bytes = Except.ok m0)
    (hrun : run m0 ops = Except.ok m1) :
    get_matched_bits m1 ≤ n - 1 := by
  obtain ⟨_, hn0, _, hinv0⟩ := buildMatcher_inv n bytes m0 h1 hn hb hbuild
  obtain ⟨hn1, hinv1⟩ := run_inv ops m0 m1 hinv0 hrun
  have hk1 : m1.k ≤ m1.n - 1 := hinv1.2.2.2.2
  unfold get_matched_bits
  omega

/-- C6 witness: a concrete matcher for the needle 00 driven through
matches, a mismatch and a restart stays below the needle length. -/
theorem C6_matched_bits_in_range_witness :
    get_matched_bits (Matcher.mk [0] 2 [-1, -1] 1) ≤ 2 - 1 :=
  C6_matched_bits_in_range 2 [0] (Matcher.mk [0] 2 [-1, -1] 0)
    (Matcher.mk [0] 2 [-1, -1] 1)
    [Op.handle true, Op.handle false, Op.restartOp, Op.handle false]
    (by decide) (by decide) (by decide) (by rfl) (by rfl)

/-- C9: in every failure table the constructor actually produces, every
entry that is not the -1 sentinel points at a needle bit that differs
from the needle bit at its own position (checked by `tableProp`).  The
constructor only completes for constant needles — any needle with two
differing bits aborts on the out-of-range fallback read (see C4) — so
every produced table is all sentinel and the property holds vacuously at
each entry. -/
theorem C9_nonsentinel_entries_differ (n : Nat) (bytes : List Nat) (m : Matcher)
    (h1 : 1 ≤ n) (hn : n < SZ) (hb : bytes.length < 2 ^ 61)
    (hbuild : buildMatcher n bytes = Except.ok m) :
    tableProp m = true := by
  obtain ⟨_, hn0, _, hinv⟩ := buildMatcher_inv n bytes m h1 hn hb hbuild
  obtain ⟨_, _, _, hall, _⟩ := hinv
  unfold tableProp
  rw [List.all_eq_true]
  intro i hi
  rw [List.mem_range] at hi
  rw [hall i hi]
  simp

/-- C9 witness: the matcher for the constant needle 11 (byte `0xFF`,
N = 2) is constructible and its table satisfies the property. -/
theorem C9_nonsentinel_entries_differ_witness :
    tableProp (Matcher.mk [255] 2 [-1, -1] 0) = true :=
  C9_nonsentinel_entries_differ 2 [255] (Matcher.mk [255] 2 [-1, -1] 0)
    (by decide) (by decide) (by decide) (by rfl)

/-- C10: `table[0]` is stored as the all-ones `size_t` narrowed to `int`,
which is `-1`; and on a mismatch in state `k = 0` the assignment
`k = table[0]` makes the unsigned `k` equal to `2 ^ 64 - 1`, the match
test fails, and the increment wraps `k` modulo `2 ^ 64` back to 0 — the
bit is consumed, `get_matched_bits()` stays 0, and `handle_bit` returns
false. -/
theorem C10_sentinel_wraps_to_zero (m : Matcher) (b p0 : Bool)
    (hk : m.k = 0) (h1 : 1 ≤ m.n) (hn : m.n < SZ)
    (ht : m.table.get? 0 = some (-1))
    (hp : needleGet m.bytes 0 = some p0) (hne : p0 ≠ b) :
    toInt32 (SZ - 1) = -1 ∧ (tableInit m.n).get? 0 = some (-1) ∧
      handle_bit m b = Except.ok (false, m) ∧ get_matched_bits m = 0 := by
  refine ⟨toInt32_allones, ?_, ?_, ?_⟩
  · unfold tableInit
    rw [List.get?_set_eq_of_lt _ (by rw [List.length_replicate]; omega), toInt32_allones]
  · obtain ⟨bytes, n, table, k⟩ := m
    simp only at hk h1 hn ht hp ⊢
    subst hk
    unfold handle_bit
    simp only [hp]
    rw [if_pos hne]
    simp only [ht]
    rw [toSizeT_neg_one, sub_one_mod n h1 hn]
    rw [if_neg (show ¬(SZ - 1 = n - 1) by unfold SZ at hn ⊢; omega)]
    rw [show (SZ - 1 + 1) % SZ = 0 from by unfold SZ; omega]
  · unfold get_matched_bits
    exact hk

/-- C10 witness: the matcher for the 1-bit needle 0 in state 0, fed the
mismatching bit 1, consumes it, returns false and stays in state 0. -/
theorem C10_sentinel_wraps_to_zero_witness :
    toInt32 (SZ - 1) = -1 ∧ (tableInit 1).get? 0 = some (-1) ∧
      handle_bit (Matcher.mk [0] 1 [-1] 0) true
        = Except.ok (false, Matcher.mk [0] 1 [-1] 0) ∧
      get_matched_bits (Matcher.mk [0] 1 [-1] 0) = 0 :=
  C10_sentinel_wraps_to_zero (Matcher.mk [0] 1 [-1] 0) true false rfl
    (by decide) (by decide) (by rfl) (by rfl) (by decide)

/-- Reading a bit is reading `Nat.testBit` of the addressed word at the
MSB-first offset. -/
theorem get_eq_testBit (W : Nat) (data : List Nat) (pos w : Nat)
    (h : data.get? (BitArray.word W pos) = some w) :
    BitArray.get W data pos = some (w.testBit (BitArray.bit W pos)) := by
  unfold BitArray.get
  simp only [h]
  rfl

theorem bit_lt (W pos : Nat) (hW : 1 ≤ W) : BitArray.bit W pos < W := by
  unfold BitArray.bit
  omega

/-- C7: for every buffer, in-range bit position and boolean `v`,
`set(pos, v)` followed by `get(pos)` returns `v`, and `get(pos2)` is
unchanged for every position `pos2 ≠ pos` (any two distinct positions
address distinct bits: distinct words, or distinct MSB-first offsets in
the same word). -/
theorem C7_set_get_roundtrip (W : Nat) (data d2 : List Nat) (pos pos2 : Nat) (v : Bool)
    (hW : 1 ≤ W) (hset : BitArray.set W data pos v = some d2) (hne : pos2 ≠ pos) :
    BitArray.get W d2 pos = some v ∧
    BitArray.get W d2 pos2 = BitArray.get W data pos2 := by
  unfold BitArray.set at hset
  cases hw : data.get? (BitArray.word W pos) with
  | none => rw [hw] at hset; exact Option.noConfusion hset
  | some w =>
    simp only [hw] at hset
    injection hset with hd2
    subst hd2
    have hlt : BitArray.word W pos < data.length := by
      by_contra hge
      rw [List.get?_eq_none.mpr (by omega)] at hw
      exact Option.noConfusion hw
    have hb1 : BitArray.bit W pos < W := bit_lt W pos hW
    constructor
    · rw [get_eq_testBit W _ pos _ (List.get?_set_eq_of_lt _ hlt)]
      cases v with
      | true =>
        simp [Nat.testBit_or, Nat.one_shiftLeft, Nat.testBit_two_pow_self]
      | false =>
        simp [Nat.testBit_and, Nat.testBit_xor, Nat.one_shiftLeft,
          Nat.testBit_two_pow_self, Nat.testBit_two_pow_sub_one, hb1]
    · by_cases hword : BitArray.word W pos2 = BitArray.word W pos
      · have hmne : pos2 % W ≠ pos % W := by
          intro hmm2
          apply hne
          unfold BitArray.word at hword
          calc pos2 = W * (pos2 / W) + pos2 % W := (Nat.div_add_mod pos2 W).symm
            _ = W * (pos / W) + pos % W := by rw [hword, hmm2]
            _ = pos := Nat.div_add_mod pos W
        have m1 : pos % W < W := Nat.mod_lt _ (by omega)
        have m2 : pos2 % W < W := Nat.mod_lt _ (by omega)
        have hbne : BitArray.bit W pos ≠ BitArray.bit W pos2 := by
          unfold BitArray.bit
          omega
        have hb2 : BitArray.bit W pos2 < W := bit_lt W pos2 hW
        rw [get_eq_testBit W _ pos2 _ (by rw [hword]; exact List.get?_set_eq_of_lt _ hlt),
          get_eq_testBit W data pos2 w (by rw [hword]; exact hw)]
        cases v with
        | true =>
          simp [Nat.testBit_or, Nat.one_shiftLeft, Nat.testBit_two_pow_of_ne hbne]
        | false =>
          simp [Nat.testBit_and, Nat.testBit_xor, Nat.one_shiftLeft,
            Nat.testBit_two_pow_of_ne hbne, Nat.testBit_two_pow_sub_one, hb2]
      · have hs : (data.set (BitArray.word W pos)
            (if v then w ||| 1 <<< BitArray.bit W pos
             else w &&& (2 ^ W - 1 ^^^ 1 <<< BitArray.bit W pos))).get? (BitArray.word W pos2)
            = data.get? (BitArray.word W pos2) :=
          List.get?_set_ne _ _ (Ne.symm hword)
        unfold BitArray.get
        rw [hs]

/-- C7 witness: on one 8-bit word 0, setting bit 0 to true yields a
buffer where bit 0 reads true and bit 3 is unchanged. -/
theorem C7_set_get_roundtrip_witness :
    BitArray.get 8 [128] 0 = some true ∧
    BitArray.get 8 [128] 3 = BitArray.get 8 [0] 3 :=
  C7_set_get_roundtrip 8 [0] [128] 0 3 true (by decide) (by rfl) (by decide)

/-- C8: bit addressing is MSB-first within each `W`-bit word — `get(pos)`
returns bit number `W - 1 - (pos % W)` (in LSB-numbered `Nat.testBit`
convention) of word number `pos / W` — and on a single `W`-bit word
initialised to 0, `set(0, true)` makes the raw word value exactly
`1 <<< (W - 1)`, the most-significant bit alone. -/
theorem C8_msb_first_order (W : Nat) (data : List Nat) (pos w : Nat)
    (hW : 1 ≤ W) (h : data.get? (pos / W) = some w) :
    BitArray.get W data pos = some (w.testBit (W - 1 - pos % W)) ∧
    BitArray.set W [0] 0 true = some [1 <<< (W - 1)] := by
  constructor
  · exact get_eq_testBit W data pos w h
  · unfold BitArray.set BitArray.word BitArray.bit
    rw [Nat.zero_div, Nat.zero_mod]
    simp only [List.get?]
    rw [if_pos trivial, Nat.zero_or, Nat.sub_zero]
    rfl

/-- C8 witness: instantiated at `W = 8` on the two-byte buffer
`[0x12, 0x42]` at bit position 9 (word 1, offset 6), plus the raw
single-word value `0x80` after `set(0, true)`. -/
theorem C8_msb_first_order_witness :
    BitArray.get 8 [18, 66] 9 = some ((66 : Nat).testBit (8 - 1 - 9 % 8)) ∧
    BitArray.set 8 [0] 0 true = some [1 <<< (8 - 1)] :=
  C8_msb_first_order 8 [18, 66] 9 66 (by decide) (by rfl)
